import Mathlib

/-!
Verification development for the grid/field core of the pymet package
(`pymet/field/core.py`).  The Python source is shallowly embedded below:
coordinate values are modelled as rationals, numpy arrays as lists, the
five physical axes as an enumerated type, and Python exceptions as
explicit error results.  Each definition carries a comment pointing to
the source lines it embeds.
-/

namespace Pymet

/-- The five recognized physical axes of a `McGrid`. -/
inductive Axis where
  | ens
  | time
  | lev
  | lat
  | lon
deriving DecidableEq

instance : Fintype Axis :=
  ⟨⟨[Axis.ens, Axis.time, Axis.lev, Axis.lat, Axis.lon], by decide⟩,
   fun a => by cases a <;> decide⟩

/-- The canonical GrADS axis order `['ens','time','lev','lat','lon']`
(`correct_order` in `McGrid._setdimsattr`, src line 102, also the initial
value of `dims` at src line 86). -/
def canonicalOrder : List Axis := [Axis.ens, Axis.time, Axis.lev, Axis.lat, Axis.lon]

/-- Position of an axis in `correct_order` (`correct_order.index(l)`,
src line 108). -/
def axIdx : Axis → ℕ
  | .ens => 0
  | .time => 1
  | .lev => 2
  | .lat => 3
  | .lon => 4

/-- A Python value stored in (or assigned to) an axis attribute: `None`,
a scalar, or an array/sequence of coordinate values. -/
inductive PyVal where
  | pnone : PyVal
  | scalar (x : ℚ) : PyVal
  | arr (xs : List ℚ) : PyVal
deriving DecidableEq

/-- `np.size` of a stored value: `np.size(None) = 1`, scalars have size 1,
arrays their length (used in `McGrid.__setattr__`, src lines 121 and 124). -/
def pySize : PyVal → ℕ
  | .pnone => 1
  | .scalar _ => 1
  | .arr xs => xs.length

/-- The `value[0]` extraction of the size-1 branch of `McGrid.__setattr__`
(src lines 125-128): indexing succeeds on a one-element sequence, and the
`TypeError` fallback stores the value unchanged for `None` and scalars. -/
def collapse1 : PyVal → PyVal
  | .arr (x :: _) => .scalar x
  | v => v

/-- The mutable state of a `McGrid` instance that the claims concern:
`name`, the derived `dims` list, and the stored value of each of the five
axis attributes (`__dict__` entries; an axis whose entry holds `None` is
absent). -/
structure McGrid where
  name : Option String
  dims : List Axis
  slot : Axis → PyVal

/-- Insertion of an axis into a list ordered by `axIdx`; helper for
modelling Python's `list.sort(key=lambda l: correct_order.index(l))`. -/
def insertAx (x : Axis) : List Axis → List Axis
  | [] => [x]
  | y :: ys => if axIdx x < axIdx y then x :: y :: ys else y :: insertAx x ys

/-- Sorting by canonical axis position; on lists of distinct axes this
computes exactly the result of Python's stable `list.sort` with key
`correct_order.index` (src line 108). -/
def sortAx : List Axis → List Axis
  | [] => []
  | x :: xs => insertAx x (sortAx xs)

/-- `McGrid._setdimsattr(name, 'remove')` (src lines 103-104):
`if name in dimsattr: dimsattr.remove(name)`. -/
def setdimsRemove (dims : List Axis) (a : Axis) : List Axis :=
  if a ∈ dims then dims.erase a else dims

/-- `McGrid._setdimsattr(name, 'add')` (src lines 105-108): if absent,
append the axis and re-sort by canonical position. -/
def setdimsAdd (dims : List Axis) (a : Axis) : List Axis :=
  if a ∈ dims then dims else sortAx (dims ++ [a])

/-- Pointwise update of the axis-attribute table. -/
def updateSlot (f : Axis → PyVal) (a : Axis) (v : PyVal) : Axis → PyVal :=
  fun b => if b = a then v else f b

/-- `McGrid.__setattr__` for one of the five axis attributes
(src lines 120-132): an empty value stores `None` and removes the axis
from `dims`; a size-1 value stores the collapsed scalar and removes the
axis; a longer sequence is stored as an array and added to `dims`. -/
def setAxis (g : McGrid) (a : Axis) (v : PyVal) : McGrid :=
  if pySize v = 0 then
    { g with slot := updateSlot g.slot a PyVal.pnone, dims := setdimsRemove g.dims a }
  else if pySize v = 1 then
    { g with slot := updateSlot g.slot a (collapse1 v), dims := setdimsRemove g.dims a }
  else
    { g with slot := updateSlot g.slot a v, dims := setdimsAdd g.dims a }

/-- The state of a `McGrid` at the start of `__init__` (src line 86):
`dims` holds all five axes and no axis attribute has been assigned yet
(modelled as `None`; `__init__` immediately assigns all five). -/
def mkBare (name : Option String) : McGrid :=
  { name := name, dims := canonicalOrder, slot := fun _ => PyVal.pnone }

/-- `McGrid.__init__` (src lines 83-95): sets `dims` to the canonical
order and then assigns `lon`, `lat`, `lev`, `time`, `ens` in that order,
each assignment passing through `__setattr__`. -/
def initMcGrid (name : Option String) (lon lat lev time ens : PyVal) : McGrid :=
  setAxis (setAxis (setAxis (setAxis (setAxis (mkBare name)
    Axis.lon lon) Axis.lat lat) Axis.lev lev) Axis.time time) Axis.ens ens

/-- Whether the stored value of an axis is a sequence of length at least
two — the claims' notion of the axis being present in the grid. -/
def holdsSeq2 (g : McGrid) (a : Axis) : Bool :=
  match g.slot a with
  | .arr xs => decide (2 ≤ xs.length)
  | _ => false

/-- The key invariant: `dims` is the canonical order restricted to the
axes currently holding a sequence of length at least two. -/
def DimsInv (g : McGrid) : Prop :=
  g.dims = canonicalOrder.filter (fun a => holdsSeq2 g a)

/-- Removing an axis from a canonical restriction yields the canonical
restriction of the shrunken predicate (checked over all 32 predicates and
5 axes). -/
theorem remove_filter_can : ∀ (p : Axis → Bool) (a : Axis),
    setdimsRemove (canonicalOrder.filter p) a
      = canonicalOrder.filter (fun x => if a = x then false else p x) := by
  decide

/-- Adding an axis to a canonical restriction yields the canonical
restriction of the enlarged predicate (checked over all 32 predicates and
5 axes). -/
theorem add_filter_can : ∀ (p : Axis → Bool) (a : Axis),
    setdimsAdd (canonicalOrder.filter p) a
      = canonicalOrder.filter (fun x => if a = x then true else p x) := by
  decide

/-- Effect of one axis assignment on `dims`, for any grid whose `dims` is
a canonical restriction: the assigned axis's membership becomes
"value has length at least 2" and no other membership changes. -/
theorem setAxis_dims_shape (g : McGrid) (p : Axis → Bool)
    (h : g.dims = canonicalOrder.filter p) (a : Axis) (v : PyVal) :
    (setAxis g a v).dims
      = canonicalOrder.filter (fun x => if a = x then decide (2 ≤ pySize v) else p x) := by
  cases v with
  | pnone => simp [setAxis, pySize, h, remove_filter_can]
  | scalar y => simp [setAxis, pySize, h, remove_filter_can]
  | arr xs =>
    by_cases h0 : xs.length = 0
    · simp [setAxis, pySize, h0, h, remove_filter_can]
    · by_cases h1 : xs.length = 1
      · simp [setAxis, pySize, h0, h1, h, remove_filter_can]
      · have h2 : 2 ≤ xs.length := by omega
        simp [setAxis, pySize, h0, h1, h2, h, add_filter_can]

/-- Effect of one axis assignment on the presence predicate. -/
theorem setAxis_holds (g : McGrid) (a : Axis) (v : PyVal) (x : Axis) :
    holdsSeq2 (setAxis g a v) x
      = if a = x then decide (2 ≤ pySize v) else holdsSeq2 g x := by
  cases v with
  | pnone =>
    by_cases hax : x = a
    · subst hax; simp [setAxis, holdsSeq2, updateSlot, pySize, collapse1]
    · have hax' : ¬ a = x := fun hh => hax hh.symm
      simp [setAxis, holdsSeq2, updateSlot, pySize, hax, hax']
  | scalar y =>
    by_cases hax : x = a
    · subst hax; simp [setAxis, holdsSeq2, updateSlot, pySize, collapse1]
    · have hax' : ¬ a = x := fun hh => hax hh.symm
      simp [setAxis, holdsSeq2, updateSlot, pySize, hax, hax']
  | arr xs =>
    by_cases hax : x = a
    · subst hax
      by_cases h0 : xs.length = 0
      · have hnil : xs = [] := List.length_eq_zero.mp h0
        subst hnil
        simp [setAxis, holdsSeq2, updateSlot, pySize]
      · by_cases h1 : xs.length = 1
        · obtain ⟨y, rfl⟩ : ∃ y, xs = [y] := by
            cases xs with
            | nil => exact absurd h1 (by simp)
            | cons y ys =>
              cases ys with
              | nil => exact ⟨y, rfl⟩
              | cons z zs => exfalso; simp at h1
          simp [setAxis, holdsSeq2, updateSlot, pySize, collapse1]
        · have h2 : 2 ≤ xs.length := by omega
          simp [setAxis, holdsSeq2, updateSlot, pySize, h0, h1, h2]
    · have hax' : ¬ a = x := fun hh => hax hh.symm
      by_cases h0 : xs.length = 0
      · simp [setAxis, holdsSeq2, updateSlot, pySize, h0, hax, hax']
      · by_cases h1 : xs.length = 1
        · simp [setAxis, holdsSeq2, updateSlot, pySize, h0, h1, hax, hax']
        · simp [setAxis, holdsSeq2, updateSlot, pySize, h0, h1, hax, hax']

/-- Canonical restrictions of pointwise-equal predicates coincide. -/
theorem filter_can_congr (p q : Axis → Bool) (h : ∀ a, p a = q a) :
    canonicalOrder.filter p = canonicalOrder.filter q := by
  rw [show p = q from funext h]

/-- One axis assignment preserves the `dims` invariant. -/
theorem DimsInv.setAxis {g : McGrid} (hg : DimsInv g) (a : Axis) (v : PyVal) :
    DimsInv (Pymet.setAxis g a v) := by
  unfold DimsInv
  rw [setAxis_dims_shape g _ hg a v]
  exact filter_can_congr _ _ (fun x => (setAxis_holds g a v x).symm)

/-- A freshly constructed grid satisfies the `dims` invariant: `__init__`
assigns all five axis attributes, so the initial all-axes `dims` is
corrected before the constructor returns. -/
theorem DimsInv_init (name : Option String) (lon lat lev time ens : PyVal) :
    DimsInv (initMcGrid name lon lat lev time ens) := by
  have h0 : (mkBare name).dims = canonicalOrder.filter (fun _ => true) := rfl
  have h1 := setAxis_dims_shape (mkBare name) _ h0 Axis.lon lon
  have h2 := setAxis_dims_shape _ _ h1 Axis.lat lat
  have h3 := setAxis_dims_shape _ _ h2 Axis.lev lev
  have h4 := setAxis_dims_shape _ _ h3 Axis.time time
  have h5 := setAxis_dims_shape _ _ h4 Axis.ens ens
  unfold DimsInv initMcGrid
  rw [h5]
  refine filter_can_congr _ _ (fun x => ?_)
  cases x <;>
    simp [setAxis_holds, axIdx]

/-- A sequence of axis assignments applied in order through
`McGrid.__setattr__` (the grid after "any sequence of settings and
clearings"). -/
def applyOps (g : McGrid) (ops : List (Axis × PyVal)) : McGrid :=
  ops.foldl (fun h op => setAxis h op.1 op.2) g

/-- The `dims` invariant is preserved by any sequence of assignments. -/
theorem DimsInv_applyOps (ops : List (Axis × PyVal)) :
    ∀ g : McGrid, DimsInv g → DimsInv (applyOps g ops) := by
  induction ops with
  | nil => intro g hg; exact hg
  | cons op rest ih =>
    intro g hg
    exact ih (setAxis g op.1 op.2) (hg.setAxis op.1 op.2)

/-- C1: for every `McGrid`, after any sequence of settings and clearings
of the five axis attributes, `dims` equals the subsequence of the
canonical order `['ens','time','lev','lat','lon']` containing exactly the
axes currently holding a sequence of length at least 2 (an axis set to an
empty or length-1 value is absent from `dims`); since every prefix of
`ops` is itself such a sequence, this holds after every single
assignment. -/
theorem C1_dims_canonical_invariant (name : Option String)
    (lon lat lev time ens : PyVal) (ops : List (Axis × PyVal)) :
    (applyOps (initMcGrid name lon lat lev time ens) ops).dims
      = canonicalOrder.filter
          (fun a => holdsSeq2 (applyOps (initMcGrid name lon lat lev time ens) ops) a) :=
  DimsInv_applyOps ops _ (DimsInv_init name lon lat lev time ens)

/-- Python exceptions raised by the embedded operations. -/
inductive PyErr where
  | noSuchDim
  | outOfDomain
  | valueErrorStep
  | nameErrorTools
  | indexErr
  | typeError
  | attributeErr
  | shapeMismatch
  | valueErrorArgs
deriving DecidableEq

/-- A criterion passed to `McGrid.gridmask`: a 2-tuple (interval), a list
(membership), or a scalar (nearest match). -/
inductive GMCrit where
  | tup (a b : ℚ)
  | lst (xs : List ℚ)
  | scl (x : ℚ)
deriving DecidableEq

/-- Minimum of a coordinate array (`dimvalue.min()`). -/
def qMinL : List ℚ → ℚ
  | [] => 0
  | x :: xs => xs.foldl min x

/-- Maximum of a coordinate array (`dimvalue.max()`). -/
def qMaxL : List ℚ → ℚ
  | [] => 0
  | x :: xs => xs.foldl max x

/-- First index minimizing `|x - t|` (`np.argmin(np.abs(dimvalue-kwdvalue))`,
src line 312; `np.argmin` returns the first minimal index). -/
def argminAbs (t : ℚ) (xs : List ℚ) : ℕ :=
  match xs with
  | [] => 0
  | x :: rest =>
    (rest.foldl
      (fun (st : ℕ × ℚ × ℕ) y =>
        if |y - t| < st.2.1 then (st.2.2, |y - t|, st.2.2 + 1)
        else (st.1, st.2.1, st.2.2 + 1))
      (0, |x - t|, 1)).1

/-- The coordinate array stored for an axis: for every axis listed in
`dims` the stored value is an array; the other cases are unreachable there
and included for totality. -/
def storedCoords : PyVal → List ℚ
  | .arr xs => xs
  | .scalar x => [x]
  | .pnone => []

/-- The per-axis boolean selector built by one iteration of the
`for dim in self.dims` loop of `McGrid.gridmask` (src lines 298-312):
no criterion gives `dimvalue==dimvalue` (all true); a tuple selects the
closed interval between its min and max; a list maps membership in the
axis over the criterion list (src line 308: `map(lambda x: x in dimvalue,
kwdvalue)`); a scalar outside the axis range raises, otherwise the single
nearest index is selected. -/
def gridmaskSel (dimvalue : List ℚ) : Option GMCrit → Except PyErr (List Bool)
  | none => .ok (dimvalue.map (fun _ => true))
  | some (.tup a b) =>
    .ok (dimvalue.map (fun x => decide (min a b ≤ x) && decide (x ≤ max a b)))
  | some (.lst ks) => .ok (ks.map (fun k => decide (k ∈ dimvalue)))
  | some (.scl x) =>
    if decide (x < qMinL dimvalue) || decide (qMaxL dimvalue < x) then
      .error .outOfDomain
    else
      .ok ((List.range dimvalue.length).map (fun i => i == argminAbs x dimvalue))

/-- `McGrid.gridmask` (src lines 270-314): rejects criteria naming absent
axes, then builds one selector per axis of `dims` in order (`np.ix_`
then combines these per-axis selectors into a cross-product index). -/
def gridmask (g : McGrid) (kwargs : List (Axis × GMCrit)) :
    Except PyErr (List (List Bool)) :=
  if kwargs.all (fun kv => g.dims.contains kv.1) then
    g.dims.mapM (fun d => gridmaskSel (storedCoords (g.slot d)) (kwargs.lookup d))
  else .error .noSuchDim

/-- The selector the claim states for a list criterion, written from the
spec's words for comparison with the source's `gridmaskSel`: a boolean
over the axis's coordinate sequence selecting exactly the positions whose
coordinate value is a member of the supplied list. -/
def listSelClaim (dimvalue ks : List ℚ) : List Bool :=
  dimvalue.map (fun x => decide (x ∈ ks))

/-- Concrete grid with `lev = [1000, 500, 200]` (its only present axis). -/
def C2grid : McGrid :=
  initMcGrid (some "test_grid") PyVal.pnone PyVal.pnone
    (PyVal.arr [1000, 500, 200]) PyVal.pnone PyVal.pnone

/-- C2 (code bug): on the grid with `lev = [1000, 500, 200]`,
`gridmask(lev=[500, 100])` produces at the `lev` position the boolean
list `[x in lev for x in [500, 100]] = [True, False]` — a selector over
the criterion list (src line 308 maps over `kwdvalue`, not over the
axis) — whereas the claim requires the selector over the axis,
`[v in [500, 100] for v in lev] = [False, True, False]`; the two differ
(they do not even have the same length). -/
theorem C2_gridmask_list_eval :
    gridmask C2grid [(Axis.lev, GMCrit.lst [500, 100])] = Except.ok [[true, false]]
    ∧ listSelClaim [1000, 500, 200] [500, 100] = [false, true, false]
    ∧ ([[true, false]] : List (List Bool)) ≠ [[false, true, false]] :=
  ⟨rfl, rfl, by decide⟩

/-- Outcome of `McGrid.dimvalueindex` on a single keyword: a returned
index, the *returned* (not raised) `(KeyError, message)` pair of src line
258, a raised `ValueError` from `list.index`, or the raised `TypeError`
from `list()` of a scalar axis value. -/
inductive DVOut where
  | idx (i : ℕ)
  | returnedKeyErrorPair
  | raisedValueError
  | raisedTypeError
deriving DecidableEq

/-- `McGrid.dimvalueindex` for a single keyword argument (src lines
254-268): when the axis attribute holds `None` the function executes
`return KeyError, "..."` (src line 258), returning the pair as an
ordinary value instead of raising; otherwise `list(dimvalue).index(value)`
returns the first index of the value or raises `ValueError` (the
`if idx < 0` branch at src line 260 is dead, since `list.index` raises
rather than returning a negative index). -/
def dimvalueindex (g : McGrid) (key : Axis) (v : ℚ) : DVOut :=
  match g.slot key with
  | .pnone => .returnedKeyErrorPair
  | .scalar _ => .raisedTypeError
  | .arr xs =>
    match xs.findIdx? (fun x => x == v) with
    | some i => .idx i
    | none => .raisedValueError

/-- Concrete grid with only `lon = [0, 90]` present; `lev` is absent. -/
def C5grid : McGrid :=
  initMcGrid (some "g") (PyVal.arr [0, 90]) PyVal.pnone PyVal.pnone
    PyVal.pnone PyVal.pnone

/-- C5 (code bug): looking up a value on the absent `lev` axis does not
raise — src line 258 `return KeyError, "..."` returns the pair as a
normal value (contradicting the claim and the method's own docstring,
which says a `KeyError` is raised).  The other two parts of the claim do
hold: a present value returns its index and a missing value raises
`ValueError`. -/
theorem C5_dimvalueindex_eval :
    dimvalueindex C5grid Axis.lev 500 = DVOut.returnedKeyErrorPair
    ∧ dimvalueindex C5grid Axis.lon 90 = DVOut.idx 1
    ∧ dimvalueindex C5grid Axis.lon 45 = DVOut.raisedValueError :=
  ⟨rfl, rfl, rfl⟩

/-- The `grid` argument of `McField.__init__`: `None`, a `McGrid`
instance, or a value of any other type. -/
inductive GridArg where
  | noneArg
  | mcgrid (g : McGrid)
  | other

/-- The grid-attachment logic of `McField.__init__` (src lines 429-435):
`grid=None` silently attaches `McGrid(name)`; a `McGrid` is attached
as-is; anything else raises `TypeError`. -/
def mcfieldInitGrid (name : Option String) : GridArg → Except PyErr McGrid
  | .noneArg =>
    .ok (initMcGrid name PyVal.pnone PyVal.pnone PyVal.pnone PyVal.pnone PyVal.pnone)
  | .mcgrid g => .ok g
  | .other => .error PyErr.typeError

/-- C10: constructing a `McField` with `grid=None` never fails: it
attaches a freshly created `McGrid` named after the field with no axes
present (`dims = []`, every axis attribute `None`); a supplied `McGrid`
is attached unchanged, and `TypeError` is raised exactly for a non-`None`
argument that is not a `McGrid`. -/
theorem C10_init_grid_default (name : Option String) :
    mcfieldInitGrid name GridArg.noneArg
        = Except.ok (initMcGrid name PyVal.pnone PyVal.pnone PyVal.pnone
            PyVal.pnone PyVal.pnone)
    ∧ (initMcGrid name PyVal.pnone PyVal.pnone PyVal.pnone PyVal.pnone
        PyVal.pnone).name = name
    ∧ (initMcGrid name PyVal.pnone PyVal.pnone PyVal.pnone PyVal.pnone
        PyVal.pnone).dims = []
    ∧ (∀ a, (initMcGrid name PyVal.pnone PyVal.pnone PyVal.pnone PyVal.pnone
        PyVal.pnone).slot a = PyVal.pnone)
    ∧ (∀ g, mcfieldInitGrid name (GridArg.mcgrid g) = Except.ok g)
    ∧ mcfieldInitGrid name GridArg.other = Except.error PyErr.typeError := by
  refine ⟨rfl, rfl, rfl, ?_, fun g => rfl, rfl⟩
  intro a
  cases a <;> rfl

/-- Sum of a list of rationals. -/
def listSum (xs : List ℚ) : ℚ := xs.foldl (· + ·) 0

/-- Mean of a masked-array reduction (underlying numeric library,
unmasked case). -/
def maMean (xs : List ℚ) : ℚ := listSum xs / (xs.length : ℚ)

/-- Variance of a masked-array reduction with the default `ddof=0`
(underlying numeric library): mean of squared deviations. -/
def maVar (xs : List ℚ) : ℚ :=
  listSum (xs.map (fun x => (x - maMean xs) ^ 2)) / (xs.length : ℚ)

/-- Characterisation of the masked-array standard deviation: the
nonnegative square root of the variance (stated as a predicate so the
development stays in `ℚ`). -/
def maStdIs (xs : List ℚ) (s : ℚ) : Prop := 0 ≤ s ∧ s ^ 2 = maVar xs

/-- The data returned by `McField.var` along the reduced axis: src line
858 reads `result = marray.std(...)` — the method computes the standard
deviation, not the variance. -/
def varMethodDataIs (xs : List ℚ) (r : ℚ) : Prop := maStdIs xs r

/-- The grid the claim (and the intermediate local variable of the
source, src lines 865-867) describes for a reduction along positional
axis `k`: a copy of the receiver's grid with `dims[k]` set to `None`. -/
def reducedGrid (g : McGrid) (axis : ℕ) : McGrid :=
  match g.dims.get? axis with
  | some a => setAxis g a PyVal.pnone
  | none => g

/-- The grid actually attached to the result of `McField.var` (src line
868): the constructor call reads `McField(result, name=self.name,
gird=grid, mask=result.mask)` — the keyword is misspelled `gird`, so
`McField.__init__` receives `grid=None` and attaches the fresh axis-less
`McGrid(self.name)`; the reduced grid computed at src lines 865-867 is
discarded. -/
def varMethodGrid (selfName : Option String) (selfGrid : McGrid) (axis : ℕ) : McGrid :=
  match mcfieldInitGrid selfName GridArg.noneArg with
  | .ok g => g
  | .error _ => reducedGrid selfGrid axis

/-- Concrete receiver grid with `time = [0, 1, 2]` and `lev = [1000, 500]`
present (`dims = [time, lev]`). -/
def C3grid : McGrid :=
  initMcGrid (some "f") PyVal.pnone PyVal.pnone (PyVal.arr [1000, 500])
    (PyVal.arr [0, 1, 2]) PyVal.pnone

/-- C3 (code bug): `McField.var` returns the standard deviation, not the
variance — on data `[0, 4]` the masked-array variance is `4` but the
method's result is `2` (the value `s ≥ 0` with `s² = 4`) — and its
result grid is the fresh axis-less `McGrid(self.name)` (because of the
misspelled keyword `gird=`), not the receiver's grid with only axis `k`
marked absent: on `C3grid` with `k = 1` the claim's grid keeps
`dims = [time]`, while the code's result grid has `dims = []` and no
coordinate values at all. -/
theorem C3_var_method_eval :
    varMethodDataIs [0, 4] 2
    ∧ maVar [0, 4] = 4
    ∧ (2 : ℚ) ≠ 4
    ∧ (varMethodGrid (some "f") C3grid 1).dims = []
    ∧ (reducedGrid C3grid 1).dims = [Axis.time]
    ∧ (reducedGrid C3grid 1).slot Axis.time = PyVal.arr [0, 1, 2]
    ∧ (varMethodGrid (some "f") C3grid 1).slot Axis.time = PyVal.pnone := by
  refine ⟨⟨by norm_num, ?_⟩, ?_, by norm_num, rfl, rfl, rfl, rfl⟩
  · show (2 : ℚ) ^ 2 = maVar [0, 4]
    norm_num [maVar, maMean, listSum]
  · norm_num [maVar, maMean, listSum]

/-- Boundary policy of the windowed time-series transforms. -/
inductive BoundMode where
  | mask
  | valid
deriving DecidableEq

/-- Mode of the Lanczos time filter. -/
inductive FiltMode where
  | lowpass
  | highpass
  | bandpass
deriving DecidableEq

/-- A `McField` restricted to what the time-series transforms touch: its
name, its grid, its data along the time axis (time coordinates are
modelled in seconds; a one-dimensional series suffices because the
transforms act along `grid.tdim` only), and its mask. -/
structure TSField where
  name : Option String
  grid : McGrid
  data : List ℚ
  mask : List Bool

/-- Successive differences of the time coordinates (`np.diff(grid.time)`,
src line 564). -/
def pyDiffs : List ℚ → List ℚ
  | x :: y :: rest => (y - x) :: pyDiffs (y :: rest)
  | _ => []

/-- Python `int()` of a rational: truncation toward zero. -/
def ratTrunc (q : ℚ) : ℤ := if 0 ≤ q then ⌊q⌋ else -⌊-q⌋

/-- Modelled from the spec: the output length of
`pymet.stats.lanczos_filter` and `pymet.stats.runave`, code of this
repository that is not under `src/`.  Per spec §4.5/§4.6, boundary
`valid` shrinks the series to the fully covered positions, losing
`length/2` samples at each end; `mask` keeps the full length. -/
def lanczosOutLen (n L : ℕ) : BoundMode → ℕ
  | .valid => n - 2 * (L / 2)
  | .mask => n

/-- Modelled from the spec: the mask produced by the filtering step
itself — under `mask` boundary the `length/2` edge positions at each end
are masked, under `valid` nothing is (spec §4.6). -/
def lanczosOutMask (n L : ℕ) : BoundMode → List Bool
  | .valid => List.replicate (n - 2 * (L / 2)) false
  | .mask => (List.range n).map (fun i => decide (i < L / 2) || decide (n - L / 2 ≤ i))

/-- Modelled from the spec: the filtered values.  The numeric content of
the Lanczos filter lives in the excluded `pymet.stats` layer and no claim
depends on it; only the shape contract (full length for `mask`, truncated
for `valid`) is modelled, with the windowed input standing in for the
filtered series. -/
def lanczosOutVals (xs : List ℚ) (L : ℕ) : BoundMode → List ℚ
  | .valid => (xs.drop (L / 2)).take (xs.length - 2 * (L / 2))
  | .mask => xs

/-- Result of `McField.timefilter` when it returns. -/
inductive TFOut where
  | degenerate (vals : List ℚ)
  | field (f : TSField)

/-- Name tag appended by `timefilter` (src line 584). -/
def modeTag : FiltMode → String
  | .lowpass => "lowpass"
  | .highpass => "highpass"
  | .bandpass => "bandpass"

/-- `McField.timefilter` (src lines 545-584).  The time step is
`np.diff(grid.time)[0]`; a non-uniform step raises `ValueError`.  Cutoff
days convert to sample counts by `int(cut*3600.*24 / dt.total_seconds())`
(with `max(cut1, None) = cut1` under Python 2 when `cut2` is absent), and
the filter half-length is `2*max(cut1, cut2) + 1`.  For `bound='valid'`
the source truncates `grid.time` (src line 578) and then evaluates
`tools.mrollaxis` (src line 579) — but the module never imports or
defines `tools` (src lines 1-5), so a `NameError` is raised and no result
is returned. -/
def timefilter (f : TSField) (cut1 : ℕ) (cut2 : Option ℕ) (mode : FiltMode)
    (bound : BoundMode) : Except PyErr TFOut :=
  let ts := storedCoords (f.grid.slot Axis.time)
  match ts with
  | t0 :: t1 :: _ =>
    let dt := t1 - t0
    if (pyDiffs ts).all (fun d => d == dt) then
      let c1 : ℤ := ratTrunc ((cut1 : ℚ) * 3600 * 24 / dt)
      let mx : ℤ :=
        match cut2 with
        | none => c1
        | some c => max c1 (ratTrunc ((c : ℚ) * 3600 * 24 / dt))
      let L : ℕ := (2 * mx + 1).toNat
      if lanczosOutLen f.data.length L bound < 2 then
        .ok (.degenerate (lanczosOutVals f.data L bound))
      else
        match bound with
        | .valid => .error PyErr.nameErrorTools
        | .mask =>
          match f.name with
          | none => .error PyErr.typeError
          | some nm =>
            .ok (.field
              { name := some (nm ++ "_" ++ modeTag mode)
                grid := f.grid
                data := lanczosOutVals f.data L bound
                mask := List.zipWith (fun a b => a || b) f.mask
                  (lanczosOutMask f.data.length L bound) })
    else .error PyErr.valueErrorStep
  | _ => .error PyErr.indexErr

/-- Concrete field with a strictly uniform daily time step (10 samples,
coordinates in seconds) and an all-false mask. -/
def C4field : TSField :=
  { name := some "x"
    grid := initMcGrid (some "g") PyVal.pnone PyVal.pnone PyVal.pnone
      (PyVal.arr [0, 86400, 172800, 259200, 345600, 432000, 518400,
        604800, 691200, 777600]) PyVal.pnone
    data := [1, 2, 3, 4, 5, 6, 7, 8, 9, 10]
    mask := List.replicate 10 false }

/-- C4 (code bug): on a field with a strictly uniform daily time step,
`timefilter(1, mode='lowpass', bound='valid')` does not return the
truncated result the claim describes — after truncating the local copy of
`grid.time`, src line 579 evaluates `tools.mrollaxis` and the module has
no name `tools` (it is never imported), so the call raises `NameError`. -/
theorem C4_timefilter_valid_eval :
    timefilter C4field 1 none FiltMode.lowpass BoundMode.valid
      = Except.error PyErr.nameErrorTools := by
  have hts : storedCoords (C4field.grid.slot Axis.time)
      = [0, 86400, 172800, 259200, 345600, 432000, 518400, 604800, 691200, 777600] := rfl
  have hlen : C4field.data.length = 10 := rfl
  unfold timefilter
  rw [hts]
  norm_num [pyDiffs, ratTrunc, lanczosOutLen, hlen]
  intro h
  exact absurd h (by omega)

/-- Python's symmetric slice `a[k:-k]` on a list: for `k = 0` the stop
index `-0` is `0`, so the slice is empty; for `k > 0` it removes `k`
entries from each end (src lines 542 and 578). -/
def pySliceSym (xs : List ℚ) (k : ℕ) : List ℚ :=
  if k = 0 then [] else (xs.drop k).take (xs.length - 2 * k)

/-- Modelled from the spec: `pymet.stats.runave` with boundary `valid` is
code of this repository not under `src/`.  Per spec §4.5 it is the
centred moving average keeping only the fully covered positions, the
series truncated by `length/2` samples at each end. -/
def statsRunave (xs : List ℚ) (L : ℕ) : List ℚ :=
  (List.range (xs.length - 2 * (L / 2))).map (fun i => maMean ((xs.drop i).take L))

/-- Result of `McField.runave` when it returns. -/
inductive RunOut where
  | degenerate (vals : List ℚ)
  | field (f : TSField)

/-- `McField.runave` (src lines 522-543): looks up the time axis
(`grid.tdim` raises `AttributeError` when `time` is absent from `dims`),
computes the moving average via `pymet.stats.runave`, returns the raw
result when it has fewer than 2 elements, and under `bound='valid'`
reassigns `grid.time = grid.time[length/2:-length/2]` (src line 542)
before wrapping the result with the original mask. -/
def runave (f : TSField) (L : ℕ) (bound : BoundMode) : Except PyErr RunOut :=
  if Axis.time ∈ f.grid.dims then
    let result :=
      match bound with
      | .valid => statsRunave f.data L
      | .mask => f.data
    if result.length < 2 then .ok (.degenerate result)
    else
      let grid' :=
        match bound with
        | .valid =>
          setAxis f.grid Axis.time
            (PyVal.arr (pySliceSym (storedCoords (f.grid.slot Axis.time)) (L / 2)))
        | .mask => f.grid
      .ok (.field { name := some "runave", grid := grid', data := result, mask := f.mask })
  else .error PyErr.attributeErr

/-- The stored time-axis value of a non-degenerate `runave`/field result. -/
def runOutTimeSlot : Except PyErr RunOut → Option PyVal
  | .ok (.field f) => some (f.grid.slot Axis.time)
  | _ => none

/-- Concrete field with time axis `[0..9]` (length 10). -/
def C6field : TSField :=
  { name := some "f"
    grid := initMcGrid (some "f") PyVal.pnone PyVal.pnone PyVal.pnone
      (PyVal.arr [0, 1, 2, 3, 4, 5, 6, 7, 8, 9]) PyVal.pnone
    data := [0, 1, 2, 3, 4, 5, 6, 7, 8, 9]
    mask := List.replicate 10 false }

/-- C6 counterexample: for window length `L = 1` the claim fails.  The
result of `runave(1, bound='valid')` keeps all 10 elements (at least 2),
and the claim then requires the result's time axis to be the original
axis with `floor(1/2) = 0` entries removed from each end, i.e. the full
`[0..9]`; but the source's slice `grid.time[0:-0]` is `grid.time[0:0]`,
the empty array, so the time axis of the result is absent (`None`)
instead. -/
theorem C6_runave_len1_cex :
    runOutTimeSlot (runave C6field 1 BoundMode.valid) = some PyVal.pnone
    ∧ some PyVal.pnone ≠ some (PyVal.arr [0, 1, 2, 3, 4, 5, 6, 7, 8, 9]) :=
  ⟨rfl, by decide⟩

/-- An axis assignment with a sequence of length at least 2 stores the
sequence unchanged. -/
theorem setAxis_slot_self (g : McGrid) (a : Axis) (v : PyVal)
    (h2 : 2 ≤ pySize v) : (setAxis g a v).slot a = v := by
  have h0 : ¬ pySize v = 0 := by omega
  have h1 : ¬ pySize v = 1 := by omega
  simp [setAxis, updateSlot, h0, h1]

/-- C6 (amended): for every field whose time axis is present and has the
field's length, and every window length `L ≥ 2` such that the `valid`
result keeps at least 2 elements, `runave(L, bound='valid')` returns a
field whose grid time axis equals the original time axis with
`floor(L/2)` entries removed from each end. -/
theorem C6_runave_valid_trunc (f : TSField) (ts : List ℚ) (L : ℕ)
    (hL : 2 ≤ L)
    (hmem : Axis.time ∈ f.grid.dims)
    (hslot : f.grid.slot Axis.time = PyVal.arr ts)
    (hlen : ts.length = f.data.length)
    (hres : 2 ≤ f.data.length - 2 * (L / 2)) :
    runOutTimeSlot (runave f L BoundMode.valid)
      = some (PyVal.arr ((ts.drop (L / 2)).take (ts.length - 2 * (L / 2)))) := by
  have hlen1 : (statsRunave f.data L).length = f.data.length - 2 * (L / 2) := by
    simp [statsRunave]
  have hnotlt : ¬ ((statsRunave f.data L).length < 2) := by omega
  have hk : ¬ (L / 2 = 0) := by omega
  have hslice : pySliceSym ts (L / 2)
      = (ts.drop (L / 2)).take (ts.length - 2 * (L / 2)) := by
    simp [pySliceSym, hk]
  have hlen2 : 2 ≤ pySize (PyVal.arr ((ts.drop (L / 2)).take (ts.length - 2 * (L / 2)))) := by
    simp only [pySize, List.length_take, List.length_drop]
    omega
  unfold runave
  rw [if_pos hmem, if_neg hnotlt]
  simp only [runOutTimeSlot, hslot, storedCoords, hslice]
  rw [setAxis_slot_self _ _ _ hlen2]

/-- Witness for C6: on the length-10 field with `L = 5` the result's
time axis is `[2..7]`, of length `10 - 4 = 6`, truncated by 2 entries
from each end. -/
theorem C6_runave_valid_trunc_witness :
    runOutTimeSlot (runave C6field 5 BoundMode.valid)
      = some (PyVal.arr [2, 3, 4, 5, 6, 7]) := by
  have h := C6_runave_valid_trunc C6field [0, 1, 2, 3, 4, 5, 6, 7, 8, 9] 5
    (by norm_num) (by decide) rfl rfl (by decide)
  rw [h]
  rfl

/-- A `McField` restricted to what `join` touches: the array's shape and
the owned grid (the array values themselves pass straight through
`np.ma.concatenate`, which the spec treats as the external numeric
layer). -/
structure JField where
  shape : List ℕ
  grid : McGrid

/-- The `axis` argument of `join`: positional index or axis name. -/
inductive AxSpec where
  | pos (i : ℕ)
  | nm (a : Axis)

/-- `getattr(arg.grid, dimname).copy()` (src line 1061): an array copies
to itself, `np.hstack` turns a scalar into a one-element array, and
`None.copy()` raises `AttributeError`. -/
def coordsOfSlot : PyVal → Except PyErr (List ℚ)
  | .arr xs => .ok xs
  | .scalar x => .ok [x]
  | .pnone => .error PyErr.attributeErr

/-- The shape compatibility `np.ma.concatenate` requires: equal rank and
equal length on every axis other than the join axis. -/
def concatShapesOk (s0 s : List ℕ) (i : ℕ) : Bool :=
  (s.length == s0.length) &&
    (List.range s0.length).all (fun j => (j == i) || (s[j]? == s0[j]?))

/-- The coordinate arrays gathered by the `np.hstack` list comprehension
of src line 1061, in input order, with the first failure propagated. -/
def collectCoords (dimname : Axis) : List JField → Except PyErr (List (List ℚ))
  | [] => .ok []
  | f :: fs =>
    match coordsOfSlot (f.grid.slot dimname), collectCoords dimname fs with
    | .ok c, .ok cs => .ok (c :: cs)
    | .error e, _ => .error e
    | _, .error e => .error e

/-- `join` (src lines 1010-1064): requires at least two fields, copies
the first field's grid, resolves the join axis (by `dims` position or by
name), concatenates the data along that axis (shapes must agree
elsewhere), concatenates the per-field coordinate values of that axis in
input order via `np.hstack` with no sorting and no de-duplication, and
assigns the result to the grid axis through `__setattr__`. -/
def join (args : List JField) (ax : AxSpec) : Except PyErr JField :=
  match args with
  | f0 :: f1 :: rest =>
    let grid := f0.grid
    match (match ax with
           | .nm a =>
             if grid.dims.contains a then Except.ok (a, grid.dims.indexOf a)
             else Except.error PyErr.valueErrorArgs
           | .pos i =>
             match grid.dims[i]? with
             | some a => Except.ok (a, i)
             | none => Except.error PyErr.indexErr) with
    | .error e => .error e
    | .ok (dimname, i) =>
      if ((f1 :: rest).all (fun f => concatShapesOk f0.shape f.shape i)
            && decide (i < f0.shape.length)) then
        match collectCoords dimname (f0 :: f1 :: rest) with
        | .error e => .error e
        | .ok cs =>
          Except.ok
            { shape := f0.shape.set i
                (((f0 :: f1 :: rest).map (fun f => f.shape.getD i 0)).sum)
              grid := setAxis grid dimname (PyVal.arr cs.flatten) }
      else .error PyErr.shapeMismatch
  | _ => .error PyErr.valueErrorArgs

/-- The coordinate lists gathered per input field succeed and come back
in input order when every input's grid stores an array for the axis. -/
theorem collectCoords_ok (a : Axis) (fs : List JField) (cs : List (List ℚ))
    (h : List.Forall₂ (fun f c => f.grid.slot a = PyVal.arr c) fs cs) :
    collectCoords a fs = Except.ok cs := by
  induction h with
  | nil => rfl
  | cons hfc hrest ih => simp [collectCoords, coordsOfSlot, hfc, ih]

/-- A list of nonempty lists flattens to at least one element per list. -/
theorem flatten_len_ge (cs : List (List ℚ)) (h : ∀ c ∈ cs, 1 ≤ c.length) :
    cs.length ≤ cs.flatten.length := by
  induction cs with
  | nil => simp
  | cons c cs' ih =>
    simp only [List.flatten_cons, List.length_append, List.length_cons]
    have h1 := h c (List.mem_cons_self c cs')
    have h2 := ih (fun d hd => h d (List.mem_cons_of_mem c hd))
    omega

/-- C7: joining any list of at least two fields whose shapes agree away
from the join axis concatenates each input's coordinate values for that
axis in input order (no sorting, no de-duplication: the result is
literally the flattening of the per-input coordinate lists), gives the
joined axis the sum of the inputs' axis lengths (`m + n` for two
inputs), leaves every other axis length unchanged, and the named-axis
form of the argument behaves as the positional form at the axis's
`dims` position. -/
theorem C7_join_concat (f0 f1 : JField) (rest : List JField) (i : ℕ) (a : Axis)
    (cs : List (List ℚ))
    (hax : f0.grid.dims[i]? = some a)
    (hi : i < f0.shape.length)
    (hsh : ∀ f ∈ f1 :: rest, concatShapesOk f0.shape f.shape i = true)
    (hcoords : List.Forall₂ (fun f c => f.grid.slot a = PyVal.arr c)
      (f0 :: f1 :: rest) cs)
    (hone : ∀ c ∈ cs, 1 ≤ c.length) :
    join (f0 :: f1 :: rest) (AxSpec.pos i)
        = Except.ok
            { shape := f0.shape.set i
                (((f0 :: f1 :: rest).map (fun f => f.shape.getD i 0)).sum)
              grid := setAxis f0.grid a (PyVal.arr cs.flatten) }
    ∧ (setAxis f0.grid a (PyVal.arr cs.flatten)).slot a = PyVal.arr cs.flatten
    ∧ (f0.shape.set i (((f0 :: f1 :: rest).map (fun f => f.shape.getD i 0)).sum))[i]?
        = some (((f0 :: f1 :: rest).map (fun f => f.shape.getD i 0)).sum)
    ∧ (∀ j, j ≠ i →
        (f0.shape.set i (((f0 :: f1 :: rest).map (fun f => f.shape.getD i 0)).sum))[j]?
          = f0.shape[j]?)
    ∧ (a ∈ f0.grid.dims → f0.grid.dims.indexOf a = i →
        join (f0 :: f1 :: rest) (AxSpec.nm a)
          = join (f0 :: f1 :: rest) (AxSpec.pos i)) := by
  have hcond : (((f1 :: rest).all (fun f => concatShapesOk f0.shape f.shape i)
      && decide (i < f0.shape.length))) = true := by
    simp only [Bool.and_eq_true, decide_eq_true_eq]
    exact ⟨List.all_eq_true.mpr hsh, hi⟩
  have hcoll : collectCoords a (f0 :: f1 :: rest) = Except.ok cs :=
    collectCoords_ok a _ _ hcoords
  have hlen2 : 2 ≤ cs.length := by
    rw [← List.Forall₂.length_eq hcoords]
    simp only [List.length_cons]
    omega
  have hflat : 2 ≤ cs.flatten.length :=
    le_trans hlen2 (flatten_len_ge cs hone)
  refine ⟨?_, ?_, ?_, ?_, ?_⟩
  · unfold join
    simp only [hax, hcond, if_true, hcoll]
  · exact setAxis_slot_self _ _ _ (by simpa [pySize] using hflat)
  · exact List.getElem?_set_self (by simpa using hi)
  · intro j hj
    exact List.getElem?_set_ne (fun h => hj h.symm)
  · intro hmem hidx
    have hc : f0.grid.dims.contains a = true := by simpa using hmem
    unfold join
    simp only [hc, if_true, hidx, hax]

/-- Witness for C7: two fields of shapes `(2, 3)` and `(4, 3)` with axis
0 (time) coordinates `[0, 1]` and `[2, 3, 4, 5]` join along axis 0 to
shape `(6, 3)` with joined coordinates `[0, 1, 2, 3, 4, 5]`, and joining
by the axis name gives the same result as the positional form. -/
theorem C7_join_concat_witness :
    join [⟨[2, 3], initMcGrid (some "a") (PyVal.arr [10, 20, 30]) PyVal.pnone
              PyVal.pnone (PyVal.arr [0, 1]) PyVal.pnone⟩,
          ⟨[4, 3], initMcGrid (some "b") (PyVal.arr [10, 20, 30]) PyVal.pnone
              PyVal.pnone (PyVal.arr [2, 3, 4, 5]) PyVal.pnone⟩]
        (AxSpec.pos 0)
      = Except.ok
          { shape := [6, 3]
            grid := setAxis
              (initMcGrid (some "a") (PyVal.arr [10, 20, 30]) PyVal.pnone
                PyVal.pnone (PyVal.arr [0, 1]) PyVal.pnone)
              Axis.time (PyVal.arr [0, 1, 2, 3, 4, 5]) }
    ∧ join [⟨[2, 3], initMcGrid (some "a") (PyVal.arr [10, 20, 30]) PyVal.pnone
              PyVal.pnone (PyVal.arr [0, 1]) PyVal.pnone⟩,
            ⟨[4, 3], initMcGrid (some "b") (PyVal.arr [10, 20, 30]) PyVal.pnone
              PyVal.pnone (PyVal.arr [2, 3, 4, 5]) PyVal.pnone⟩]
          (AxSpec.nm Axis.time)
        = join [⟨[2, 3], initMcGrid (some "a") (PyVal.arr [10, 20, 30]) PyVal.pnone
              PyVal.pnone (PyVal.arr [0, 1]) PyVal.pnone⟩,
            ⟨[4, 3], initMcGrid (some "b") (PyVal.arr [10, 20, 30]) PyVal.pnone
              PyVal.pnone (PyVal.arr [2, 3, 4, 5]) PyVal.pnone⟩]
          (AxSpec.pos 0) := by
  have h := C7_join_concat
    ⟨[2, 3], initMcGrid (some "a") (PyVal.arr [10, 20, 30]) PyVal.pnone
        PyVal.pnone (PyVal.arr [0, 1]) PyVal.pnone⟩
    ⟨[4, 3], initMcGrid (some "b") (PyVal.arr [10, 20, 30]) PyVal.pnone
        PyVal.pnone (PyVal.arr [2, 3, 4, 5]) PyVal.pnone⟩
    [] 0 Axis.time [[0, 1], [2, 3, 4, 5]]
    rfl (by norm_num)
    (by intro f hf; rw [List.mem_singleton] at hf; subst hf; decide)
    (List.Forall₂.cons rfl (List.Forall₂.cons rfl List.Forall₂.nil))
    (by decide)
  refine ⟨?_, ?_⟩
  · rw [h.1]
    rfl
  · exact h.2.2.2.2 (by decide) (by decide)

/-- `McGrid.copy` at the level of values (src lines 177-186): builds
`McGrid(self.name)` and deep-copies every `__dict__` entry whose value is
not `None` onto it; deep copying is the identity on values, and a
`None`-valued axis keeps the fresh grid's `None`.  (The storage
independence of the deep copy is modelled separately below for C9.) -/
def McGrid.copy (g : McGrid) : McGrid :=
  { name := g.name
    dims := g.dims
    slot := fun a =>
      match g.slot a with
      | PyVal.pnone => PyVal.pnone
      | v => v }

/-- The value copied by `McGrid.copy` equals the original. -/
theorem McGrid.copy_eq (g : McGrid) : g.copy = g := by
  cases g with
  | mk nm d s =>
    simp only [McGrid.copy, McGrid.mk.injEq, true_and]
    funext a
    cases s a <;> rfl

/-- The result of the delegated masked-array operator inside
`_oper_wrapper` (src line 934): its rank, values and its own mask. -/
structure OperRes where
  ndim : ℕ
  vals : List ℚ
  resMask : List Bool

/-- The receiver of a wrapped operator: its name and its grid
(`hasattr(self, 'grid')` modelled by an `Option`). -/
structure WSelf where
  name : Option String
  grid : Option McGrid

/-- What a wrapped operator returns: the bare masked-array result, or a
new `McField` carrying a name, grid, values and mask. -/
inductive WrapOut where
  | bare (r : OperRes)
  | wrapped (name : Option String) (grid : McGrid) (vals : List ℚ) (outMask : List Bool)

/-- `McField._oper_wrapper` (src lines 931-941): after the delegated
operator returns, a rank-0 result or a receiver without a grid yields the
bare result; otherwise the result is rewrapped in a `McField` with the
receiver's name, a copy of the receiver's grid, and the result's own
mask. -/
def operWrapper (self : WSelf) (r : OperRes) : WrapOut :=
  if r.ndim == 0 || self.grid.isNone then WrapOut.bare r
  else
    match self.grid with
    | some g => WrapOut.wrapped self.name g.copy r.vals r.resMask
    | none => WrapOut.bare r

/-- C8: every wrapped elementwise/comparison/unary operator returns a
rank-at-least-1 result as a new `McField` whose grid is a copy of the
receiver's grid with every axis unchanged (the copy equals the receiver's
grid, name, `dims` and coordinate values included) and whose mask is the
operation result's own mask; a rank-0 result, or a receiver without a
grid attribute, yields the bare unwrapped value. -/
theorem C8_oper_wrapper (self : WSelf) (r : OperRes) :
    ((r.ndim = 0 ∨ self.grid = none) → operWrapper self r = WrapOut.bare r)
    ∧ (∀ g, self.grid = some g → 1 ≤ r.ndim →
        operWrapper self r = WrapOut.wrapped self.name g.copy r.vals r.resMask
        ∧ g.copy = g) := by
  constructor
  · intro h
    rcases h with h | h
    · simp [operWrapper, h]
    · simp [operWrapper, h]
  · intro g hg hnd
    have hne : ¬ r.ndim = 0 := by omega
    exact ⟨by simp [operWrapper, hg, hne], McGrid.copy_eq g⟩

/-- Concrete receiver grid for the C8 witness, with `lon = [0, 90, 180]`. -/
def C8grid : McGrid :=
  initMcGrid (some "w") (PyVal.arr [0, 90, 180]) PyVal.pnone PyVal.pnone
    PyVal.pnone PyVal.pnone

/-- Witness for C8: a rank-1 result on a gridded receiver is wrapped with
the copied (equal) grid and the result's own mask, and the same result on
a grid-less receiver is returned bare. -/
theorem C8_oper_wrapper_witness :
    operWrapper ⟨some "f", some C8grid⟩ ⟨1, [1, 2, 3], [false, true, false]⟩
        = WrapOut.wrapped (some "f") C8grid.copy [1, 2, 3] [false, true, false]
    ∧ C8grid.copy = C8grid
    ∧ operWrapper ⟨some "f", none⟩ ⟨1, [1, 2, 3], [false, true, false]⟩
        = WrapOut.bare ⟨1, [1, 2, 3], [false, true, false]⟩ := by
  refine ⟨?_, ?_, ?_⟩
  · exact ((C8_oper_wrapper ⟨some "f", some C8grid⟩
      ⟨1, [1, 2, 3], [false, true, false]⟩).2 C8grid rfl (by norm_num)).1
  · exact ((C8_oper_wrapper ⟨some "f", some C8grid⟩
      ⟨1, [1, 2, 3], [false, true, false]⟩).2 C8grid rfl (by norm_num)).2
  · exact (C8_oper_wrapper ⟨some "f", none⟩
      ⟨1, [1, 2, 3], [false, true, false]⟩).1 (Or.inr rfl)

/-- A `McGrid` with explicit storage, for stating the independence half
of the deep-copy claim: each present axis holds a reference into a store
of coordinate arrays, so that in-place mutation of an array is
observable. -/
structure GridS where
  name : Option String
  dims : List Axis
  ref : Axis → Option ℕ

/-- The heap of coordinate arrays. -/
abbrev Store := List (List ℚ)

/-- The coordinate values of an axis: dereference its store cell. -/
def readAxisS (s : Store) (g : GridS) (a : Axis) : Option (List ℚ) :=
  (g.ref a).bind (fun i => s[i]?)

/-- Well-formedness: every axis reference points into the store. -/
def WFS (g : GridS) (s : Store) : Prop :=
  ∀ a i, g.ref a = some i → i < s.length

/-- The loop of `McGrid.copy` (src lines 182-185): for each axis whose
value is not `None`, `copy.deepcopy` allocates a fresh cell holding the
same contents and the copy's attribute references it.  The original
store `s` is only read. -/
def copyAux (s : Store) (g : GridS) : List Axis → GridS × Store → GridS × Store
  | [], acc => acc
  | a :: rest, acc =>
    match g.ref a with
    | none => copyAux s g rest acc
    | some i =>
      match s[i]? with
      | none => copyAux s g rest acc
      | some v =>
        copyAux s g rest
          ({ name := acc.1.name, dims := acc.1.dims
             ref := fun b => if b = a then some acc.2.length else acc.1.ref b },
           acc.2 ++ [v])

/-- `McGrid.copy` with explicit storage (src lines 177-186): a fresh grid
`McGrid(self.name)` (no axis references) with the `name` and `dims`
values copied, then one fresh cell per present axis. -/
def copyGridS (g : GridS) (s : Store) : GridS × Store :=
  copyAux s g canonicalOrder
    ({ name := g.name, dims := g.dims, ref := fun _ => none }, s)

/-- In-place mutation of the array contents of one axis (e.g.
`grid.lat[:] = ...`): overwrite the referenced store cell. -/
def setAxisVals (s : Store) (g : GridS) (a : Axis) (v : List ℚ) : Store :=
  match g.ref a with
  | some i => s.set i v
  | none => s

/-- Every axis is in the canonical order. -/
theorem mem_canonical (a : Axis) : a ∈ canonicalOrder := by
  cases a <;> decide

/-- Invariant of the copy loop: the accumulator's store extends the
original, its references are fresh (at or above the original store's
length), in range, and dereference to the original axis values; after
processing a list of axes, unprocessed references are untouched, every
processed well-formed axis has a reference, and axes absent in the
original stay untouched. -/
theorem copyAux_spec (s : Store) (g : GridS) (l : List Axis) :
    ∀ acc : GridS × Store,
    (∃ ext, acc.2 = s ++ ext) →
    (∀ b j, acc.1.ref b = some j →
        s.length ≤ j ∧ j < acc.2.length ∧ acc.2[j]? = readAxisS s g b) →
    (∃ ext2, (copyAux s g l acc).2 = acc.2 ++ ext2)
    ∧ (copyAux s g l acc).1.name = acc.1.name
    ∧ (copyAux s g l acc).1.dims = acc.1.dims
    ∧ (∀ b j, (copyAux s g l acc).1.ref b = some j →
        s.length ≤ j ∧ j < (copyAux s g l acc).2.length
          ∧ (copyAux s g l acc).2[j]? = readAxisS s g b)
    ∧ (∀ b, b ∉ l → (copyAux s g l acc).1.ref b = acc.1.ref b)
    ∧ (∀ b, b ∈ l → ∀ i, g.ref b = some i → i < s.length →
        ((copyAux s g l acc).1.ref b).isSome = true)
    ∧ (∀ b, g.ref b = none → (copyAux s g l acc).1.ref b = acc.1.ref b) := by
  induction l with
  | nil =>
    intro acc hext hacc
    exact ⟨⟨[], by simp [copyAux]⟩, rfl, rfl, hacc, fun b _ => rfl,
      fun b hb => absurd hb (List.not_mem_nil b), fun b _ => rfl⟩
  | cons a rest ih =>
    intro acc hext hacc
    cases hga : g.ref a with
    | none =>
      obtain ⟨hE, hN, hD, hR, hU, hM, hZ⟩ := ih acc hext hacc
      refine ⟨?_, ?_, ?_, ?_, ?_, ?_, ?_⟩ <;>
        simp only [copyAux, hga]
      · exact hE
      · exact hN
      · exact hD
      · exact hR
      · intro b hb
        exact hU b (fun hbr => hb (List.mem_cons_of_mem a hbr))
      · intro b hb i hgb hi
        rcases List.mem_cons.mp hb with hba | hbr
        · subst hba; rw [hga] at hgb; simp at hgb
        · exact hM b hbr i hgb hi
      · exact hZ
    | some i =>
      cases hsi : s[i]? with
      | none =>
        obtain ⟨hE, hN, hD, hR, hU, hM, hZ⟩ := ih acc hext hacc
        refine ⟨?_, ?_, ?_, ?_, ?_, ?_, ?_⟩ <;>
          simp only [copyAux, hga, hsi]
        · exact hE
        · exact hN
        · exact hD
        · exact hR
        · intro b hb
          exact hU b (fun hbr => hb (List.mem_cons_of_mem a hbr))
        · intro b hb i' hgb hi'
          rcases List.mem_cons.mp hb with hba | hbr
          · subst hba
            rw [hga] at hgb
            injection hgb with hii
            subst hii
            exact absurd hsi (by simp [List.getElem?_eq_getElem hi'])
          · exact hM b hbr i' hgb hi'
        · exact hZ
      | some v =>
        obtain ⟨ext, hext2⟩ := hext
        have hslen : s.length ≤ acc.2.length := by
          rw [hext2]; simp
        have hext' : ∃ e, (acc.2 ++ [v]) = s ++ e :=
          ⟨ext ++ [v], by rw [hext2, List.append_assoc]⟩
        have hacc' : ∀ b j,
            ({ name := acc.1.name, dims := acc.1.dims
               ref := fun c => if c = a then some acc.2.length else acc.1.ref c } :
              GridS).ref b = some j →
            s.length ≤ j ∧ j < (acc.2 ++ [v]).length
              ∧ (acc.2 ++ [v])[j]? = readAxisS s g b := by
          intro b j hbj
          simp only at hbj
          by_cases hba : b = a
          · rw [if_pos hba] at hbj
            injection hbj with hj
            subst hj
            refine ⟨hslen, by simp, ?_⟩
            rw [List.getElem?_concat_length, hba]
            simp [readAxisS, hga, hsi]
          · rw [if_neg hba] at hbj
            obtain ⟨h1, h2, h3⟩ := hacc b j hbj
            refine ⟨h1, ?_, ?_⟩
            · simp only [List.length_append, List.length_cons, List.length_nil]
              omega
            · rw [List.getElem?_append_left h2]
              exact h3
        obtain ⟨⟨ext2, hE⟩, hN, hD, hR, hU, hM, hZ⟩ :=
          ih ({ name := acc.1.name, dims := acc.1.dims
                ref := fun c => if c = a then some acc.2.length else acc.1.ref c },
              acc.2 ++ [v]) hext' hacc'
        refine ⟨?_, ?_, ?_, ?_, ?_, ?_, ?_⟩ <;>
          simp only [copyAux, hga, hsi]
        · exact ⟨[v] ++ ext2, by rw [hE, List.append_assoc]⟩
        · exact hN
        · exact hD
        · exact hR
        · intro b hb
          have hba : ¬ b = a := fun hba => hb (hba ▸ List.mem_cons_self a rest)
          have hbr : b ∉ rest := fun hbr => hb (List.mem_cons_of_mem a hbr)
          rw [hU b hbr]
          simp [hba]
        · intro b hb i' hgb hi'
          by_cases hbr : b ∈ rest
          · exact hM b hbr i' hgb hi'
          · rcases List.mem_cons.mp hb with hba | hba
            · subst hba
              rw [hU b hbr]
              simp
            · exact absurd hba hbr
        · intro b hgb
          have hba : ¬ b = a := fun hba => by rw [hba, hga] at hgb; cases hgb
          rw [hZ b hgb]
          simp [hba]

/-- C9: `McGrid.copy` is a deep copy — the copy's `name`, `dims` and
every axis's coordinate values equal the original's, the original is
untouched, and the storage is independent: mutating an axis array of the
copy leaves every axis of the original unchanged, and mutating an axis
array of the original leaves every axis of the copy unchanged. -/
theorem C9_copy_deep_independent (g : GridS) (s : Store) (hwf : WFS g s) :
    ((copyGridS g s).1.name = g.name ∧ (copyGridS g s).1.dims = g.dims)
    ∧ (∀ a, readAxisS (copyGridS g s).2 (copyGridS g s).1 a = readAxisS s g a)
    ∧ (∀ a, readAxisS (copyGridS g s).2 g a = readAxisS s g a)
    ∧ (∀ a v b, readAxisS (setAxisVals (copyGridS g s).2 (copyGridS g s).1 a v) g b
        = readAxisS s g b)
    ∧ (∀ a v b, readAxisS (setAxisVals (copyGridS g s).2 g a v) (copyGridS g s).1 b
        = readAxisS (copyGridS g s).2 (copyGridS g s).1 b) := by
  unfold copyGridS
  obtain ⟨⟨ext, hE⟩, hN, hD, hR, hU, hM, hZ⟩ :=
    copyAux_spec s g canonicalOrder
      ({ name := g.name, dims := g.dims, ref := fun _ => none }, s)
      ⟨[], by simp⟩ (fun b j h => by simp at h)
  have horig : ∀ a,
      readAxisS (copyAux s g canonicalOrder
        ({ name := g.name, dims := g.dims, ref := fun _ => none }, s)).2 g a
      = readAxisS s g a := by
    intro a
    cases hga : g.ref a with
    | none => simp [readAxisS, hga]
    | some i =>
      have hi : i < s.length := hwf a i hga
      simp only [readAxisS, hga, Option.bind_some]
      rw [hE]
      exact List.getElem?_append_left hi
  have hcopyread : ∀ a,
      readAxisS (copyAux s g canonicalOrder
          ({ name := g.name, dims := g.dims, ref := fun _ => none }, s)).2
        (copyAux s g canonicalOrder
          ({ name := g.name, dims := g.dims, ref := fun _ => none }, s)).1 a
      = readAxisS s g a := by
    intro a
    cases hga : g.ref a with
    | none =>
      have hnone : (copyAux s g canonicalOrder
          ({ name := g.name, dims := g.dims, ref := fun _ => none }, s)).1.ref a
          = none := (hZ a hga).trans rfl
      simp [readAxisS, hnone, hga]
    | some i =>
      have hi : i < s.length := hwf a i hga
      have hsome := hM a (mem_canonical a) i hga hi
      obtain ⟨j, hj⟩ := Option.isSome_iff_exists.mp hsome
      obtain ⟨h1, h2, h3⟩ := hR a j hj
      simp [readAxisS, hj, h3]
  refine ⟨⟨hN, hD⟩, hcopyread, horig, ?_, ?_⟩
  · intro a v b
    cases hpa : (copyAux s g canonicalOrder
        ({ name := g.name, dims := g.dims, ref := fun _ => none }, s)).1.ref a with
    | none => simpa [setAxisVals, hpa] using horig b
    | some j =>
      obtain ⟨h1, h2, h3⟩ := hR a j hpa
      cases hgb : g.ref b with
      | none => simp [readAxisS, hgb]
      | some i =>
        have hi : i < s.length := hwf b i hgb
        have hij : ¬ j = i := by omega
        have hset : setAxisVals
            (copyAux s g canonicalOrder
              ({ name := g.name, dims := g.dims, ref := fun _ => none }, s)).2
            (copyAux s g canonicalOrder
              ({ name := g.name, dims := g.dims, ref := fun _ => none }, s)).1 a v
            = ((copyAux s g canonicalOrder
              ({ name := g.name, dims := g.dims, ref := fun _ => none }, s)).2).set j v := by
          simp [setAxisVals, hpa]
        have h4 : (copyAux s g canonicalOrder
            ({ name := g.name, dims := g.dims, ref := fun _ => none }, s)).2[i]?
            = s[i]? := by
          rw [hE]
          exact List.getElem?_append_left hi
        rw [hset]
        simp [readAxisS, hgb, List.getElem?_set_ne hij, h4]
  · intro a v b
    cases hga : g.ref a with
    | none => simp [setAxisVals, hga]
    | some i =>
      have hi : i < s.length := hwf a i hga
      cases hpb : (copyAux s g canonicalOrder
          ({ name := g.name, dims := g.dims, ref := fun _ => none }, s)).1.ref b with
      | none => simp [readAxisS, hpb]
      | some j =>
        obtain ⟨h1, h2, h3⟩ := hR b j hpb
        have hij : ¬ i = j := by omega
        have hset : setAxisVals
            (copyAux s g canonicalOrder
              ({ name := g.name, dims := g.dims, ref := fun _ => none }, s)).2 g a v
            = ((copyAux s g canonicalOrder
              ({ name := g.name, dims := g.dims, ref := fun _ => none }, s)).2).set i v := by
          simp [setAxisVals, hga]
        rw [hset]
        simp [readAxisS, hpb, List.getElem?_set_ne hij]

/-- Concrete stored grid for the C9 witness: one present axis (`lat`)
referencing the single store cell `[10, 20]`. -/
def C9grid : GridS :=
  { name := some "g", dims := [Axis.lat]
    ref := fun a => if a = Axis.lat then some 0 else none }

/-- Concrete store for the C9 witness. -/
def C9store : Store := [[10, 20]]

/-- Witness for C9: copying the concrete grid preserves `dims`, the
copy's `lat` values equal the original's, and overwriting the copy's
`lat` array leaves the original's `lat` values unchanged. -/
theorem C9_copy_deep_independent_witness :
    (copyGridS C9grid C9store).1.dims = [Axis.lat]
    ∧ readAxisS (copyGridS C9grid C9store).2 (copyGridS C9grid C9store).1 Axis.lat
        = some [10, 20]
    ∧ readAxisS
        (setAxisVals (copyGridS C9grid C9store).2 (copyGridS C9grid C9store).1
          Axis.lat [99]) C9grid Axis.lat
        = some [10, 20] := by
  have hwf : WFS C9grid C9store := by
    intro a i h
    cases a <;> simp [C9grid] at h
    simp [C9store, ← h]
  have h := C9_copy_deep_independent C9grid C9store hwf
  refine ⟨?_, ?_, ?_⟩
  · rw [h.1.2]
    rfl
  · rw [h.2.1 Axis.lat]
    rfl
  · rw [h.2.2.2.1 Axis.lat [99] Axis.lat]
    rfl

end Pymet
